import Mathlib

/-!
Verification of the regex → NFA compiler (src/src/regex.c, src/src/nfa.c).

Characters are modelled as natural numbers (byte values); C strings become
`List Nat`. Fallible C functions that signal failure by returning NULL are
modelled with `Option`. The `nfa.h` header is not part of the sources; the
only constant it contributes that matters here is the epsilon symbol, which
is modelled from the spec below.
-/

/-- The symbol constants of regex.h (ASCII codes). -/
def CONCAT_SYMBOL : Nat := 46

def KLEENE_STAR_SYMBOL : Nat := 42

def ALTERNATION_SYMBOL : Nat := 124

def LEFT_PARENTHESIS_SYMBOL : Nat := 40

def RIGHT_PARENTHESIS_SYMBOL : Nat := 41

def POSITIVE_CLOSURE_SYMBOL : Nat := 43

def OPTIONAL_SYMBOL : Nat := 63

def ESCAPE_SYMBOL : Nat := 92

/-- Modelled from the spec: `nfa.h` is missing from the sources; the spec
says the alphabet has "a distinguished epsilon symbol" reserved at column 0.
We model it as byte 0, which can never occur in a C pattern or input string
(NUL terminates C strings), so it is distinguished from every literal. -/
def EPSILON_SYMBOL : Nat := 0

/-- item_type of regex.h: token kinds ordered as in the enum. -/
inductive item_type where
  | KLEENE_STAR
  | POSITIVE_CLOSURE
  | OPTIONAL
  | CONCATENATION
  | ALTERNATION
  | OPERAND
  | L_PARENTHESIS
  | R_PARENTHESIS
deriving DecidableEq, BEq, Repr

open item_type

/-- item of regex.h: a character value plus its token type. -/
structure item where
  value : Nat
  type : item_type
deriving DecidableEq, BEq, Repr

/-- regex of regex.h: a postfix item array with its size. -/
structure regex where
  items : List item
  size : Nat
deriving DecidableEq, Repr

/-- get_precedence of regex.c. -/
def get_precedence : item_type → Nat
  | KLEENE_STAR | POSITIVE_CLOSURE | OPTIONAL => 3
  | CONCATENATION => 2
  | ALTERNATION => 1
  | _ => 0

/-- should_insert_concat of regex.c. -/
def should_insert_concat (current next_it : item) : Bool :=
  (current.type == OPERAND ||
   current.type == R_PARENTHESIS ||
   current.type == KLEENE_STAR ||
   current.type == POSITIVE_CLOSURE ||
   current.type == OPTIONAL)
  &&
  (next_it.type == OPERAND ||
   next_it.type == L_PARENTHESIS)

/-- new_item of regex.c. -/
def new_item (value : Nat) (type : item_type) : item :=
  { value := value, type := type }

/-- get_item_type of regex.c. -/
def get_item_type (c : Nat) : item_type :=
  if c = KLEENE_STAR_SYMBOL then KLEENE_STAR
  else if c = POSITIVE_CLOSURE_SYMBOL then POSITIVE_CLOSURE
  else if c = OPTIONAL_SYMBOL then OPTIONAL
  else if c = CONCAT_SYMBOL then CONCATENATION
  else if c = ALTERNATION_SYMBOL then ALTERNATION
  else if c = LEFT_PARENTHESIS_SYMBOL then L_PARENTHESIS
  else if c = RIGHT_PARENTHESIS_SYMBOL then R_PARENTHESIS
  else OPERAND

/-- itemize_regex of regex.c (the loop; the NULL-input case is handled by
the caller parse_regex, and malloc is assumed to succeed). An escape symbol
followed by another character consumes both and emits the escaped character
as an operand. -/
def itemize_regex : List Nat → List item
  | [] => []
  | [c] => [new_item c (get_item_type c)]
  | c :: d :: rest =>
    if c = ESCAPE_SYMBOL then
      new_item d OPERAND :: itemize_regex rest
    else
      new_item c (get_item_type c) :: itemize_regex (d :: rest)

/-- The loop of implicit_to_explicit_concatenation of regex.c. -/
def i2e_loop : List item → List item
  | [] => []
  | [x] => [x]
  | x :: y :: rest =>
    if should_insert_concat x y then
      x :: new_item CONCAT_SYMBOL CONCATENATION :: i2e_loop (y :: rest)
    else
      x :: i2e_loop (y :: rest)

/-- implicit_to_explicit_concatenation of regex.c: NULL (`none`) when the
input size is not positive. -/
def implicit_to_explicit_concatenation (items : List item) : Option (List item) :=
  if items.length ≤ 0 then none else some (i2e_loop items)

/-- The operator case of shunting_yard of regex.c: pop operators to the
output while the top of stack is not an opening parenthesis and has
precedence ≥ the current operator. Returns (popped items in output order,
remaining stack); the stack list's head is the top. -/
def sy_pop_ops (current : item) : List item → List item × List item
  | [] => ([], [])
  | top :: rest =>
    if top.type ≠ L_PARENTHESIS ∧ get_precedence top.type ≥ get_precedence current.type then
      let r := sy_pop_ops current rest
      (top :: r.1, r.2)
    else
      ([], top :: rest)

/-- The closing-parenthesis case of shunting_yard of regex.c: pop to the
output until an opening parenthesis is found and discarded; `none` when the
stack empties first (mismatched parentheses). -/
def sy_rparen_pop : List item → Option (List item × List item)
  | [] => none
  | top :: rest =>
    if top.type = L_PARENTHESIS then some ([], rest)
    else
      match sy_rparen_pop rest with
      | none => none
      | some (popped, rem) => some (top :: popped, rem)

/-- The final flush of shunting_yard of regex.c: pop everything to the
output; `none` if an opening parenthesis remains on the stack. -/
def sy_flush : List item → Option (List item)
  | [] => some []
  | top :: rest =>
    if top.type = L_PARENTHESIS then none
    else
      match sy_flush rest with
      | none => none
      | some popped => some (top :: popped)

/-- The main loop of shunting_yard of regex.c over the input items,
carrying the output and the operator stack. -/
def shunting_yard_loop : List item → List item → List item → Option (List item × List item)
  | [], output, stack => some (output, stack)
  | current :: rest, output, stack =>
    match current.type with
    | OPERAND => shunting_yard_loop rest (output ++ [current]) stack
    | L_PARENTHESIS => shunting_yard_loop rest output (current :: stack)
    | R_PARENTHESIS =>
      match sy_rparen_pop stack with
      | none => none
      | some (popped, rem) => shunting_yard_loop rest (output ++ popped) rem
    | _ =>
      let r := sy_pop_ops current stack
      shunting_yard_loop rest (output ++ r.1) (current :: r.2)

/-- shunting_yard of regex.c: `none` on non-positive size or mismatched
parentheses. -/
def shunting_yard (items : List item) : Option (List item) :=
  if items.length ≤ 0 then none
  else
    match shunting_yard_loop items [] [] with
    | none => none
    | some (output, stack) =>
      match sy_flush stack with
      | none => none
      | some popped => some (output ++ popped)

/-- parse_regex of regex.c: the full pipeline; a NULL pattern pointer is
modelled as `none`. Every failure returns the empty regex (no items,
size 0). -/
def parse_regex (regex_str : Option (List Nat)) : regex :=
  match regex_str with
  | none => { items := [], size := 0 }
  | some s =>
    let step1 := itemize_regex s
    match implicit_to_explicit_concatenation step1 with
    | none => { items := [], size := 0 }
    | some step2 =>
      match shunting_yard step2 with
      | none => { items := [], size := 0 }
      | some step3 => { items := step3, size := step3.length }

/-!  nfa.c  -/

/-- alphabet of nfa.h, as used by nfa.c: the 256-entry char-to-column table
(-1 meaning unregistered) is a function on byte values, and the column-to-
symbol array is the list of registered symbols in column order. -/
structure alphabet where
  char_to_col : Nat → Int
  symbols : List Nat
  symbol_count : Nat

/-- new_alphabet of nfa.c: all columns unregistered, then epsilon placed at
column 0. -/
def new_alphabet : alphabet :=
  { char_to_col := fun c => if c = EPSILON_SYMBOL % 256 then 0 else -1
    symbols := [EPSILON_SYMBOL]
    symbol_count := 1 }

/-- add_symbol of nfa.c: the symbol is reduced to a byte (the C cast to
unsigned char); epsilon and already-present symbols are ignored, otherwise
the symbol receives the next free column. -/
def add_symbol (a : alphabet) (symbol : Nat) : alphabet :=
  let s := symbol % 256
  if s = EPSILON_SYMBOL then a
  else if a.char_to_col s ≠ -1 then a
  else
    { char_to_col := fun c => if c = s then (a.symbol_count : Int) else a.char_to_col c
      symbols := a.symbols ++ [symbol]
      symbol_count := a.symbol_count + 1 }

/-- t_transition of nfa.h as used by nfa.c: (from, symbol, to). -/
structure t_transition where
  from_state : Nat
  symbol : Nat
  to_state : Nat
deriving DecidableEq, Repr

/-- states_manager of nfa.h as used by nfa.c. The C fields states_count and
transitions_count are the lengths of the lists. next_id is a uint8_t in C;
state-count overflow (≥ 256 states, and ≥ 64 for the bitmasks) is the
capacity contract violation the spec rules out of scope, so ids are plain
naturals here. -/
structure states_manager where
  next_id : Nat
  states : List Nat
  transitions : List t_transition
  manager_alphabet : alphabet

/-- new_states_manager of nfa.c. -/
def new_states_manager : states_manager :=
  { next_id := 0
    states := []
    transitions := []
    manager_alphabet := new_alphabet }

/-- new_state of nfa.c: returns the fresh id and the updated manager. -/
def new_state (manager : states_manager) : Nat × states_manager :=
  (manager.next_id,
   { manager with
       next_id := manager.next_id + 1
       states := manager.states ++ [manager.next_id] })

/-- add_transition of nfa.c: record the transition and register its symbol. -/
def add_transition (manager : states_manager)
    (from_state : Nat) (symbol : Nat) (to_state : Nat) : states_manager :=
  { manager with
      transitions := manager.transitions ++
        [{ from_state := from_state, symbol := symbol, to_state := to_state }]
      manager_alphabet := add_symbol manager.manager_alphabet symbol }

/-- t_nfa of nfa.h: an ephemeral fragment (start, end). The C field `end`
is a Lean keyword and is rendered end_. -/
structure t_nfa where
  start : Nat
  end_ : Nat
deriving DecidableEq, Repr

/-- symbol_nfa of nfa.c. -/
def symbol_nfa (manager : states_manager) (symbol : Nat) : t_nfa × states_manager :=
  let r1 := new_state manager
  let r2 := new_state r1.2
  ({ start := r1.1, end_ := r2.1 },
   add_transition r2.2 r1.1 symbol r2.1)

/-- concat_nfa of nfa.c. -/
def concat_nfa (manager : states_manager) (a b : t_nfa) : t_nfa × states_manager :=
  ({ start := a.start, end_ := b.end_ },
   add_transition manager a.end_ EPSILON_SYMBOL b.start)

/-- union_nfa of nfa.c. -/
def union_nfa (manager : states_manager) (a b : t_nfa) : t_nfa × states_manager :=
  let r1 := new_state manager
  let r2 := new_state r1.2
  let m1 := add_transition r2.2 r1.1 EPSILON_SYMBOL a.start
  let m2 := add_transition m1 r1.1 EPSILON_SYMBOL b.start
  let m3 := add_transition m2 a.end_ EPSILON_SYMBOL r2.1
  let m4 := add_transition m3 b.end_ EPSILON_SYMBOL r2.1
  ({ start := r1.1, end_ := r2.1 }, m4)

/-- positive_closure_nfa of nfa.c. -/
def positive_closure_nfa (manager : states_manager) (a : t_nfa) : t_nfa × states_manager :=
  let r1 := new_state manager
  let r2 := new_state r1.2
  let m1 := add_transition r2.2 r1.1 EPSILON_SYMBOL a.start
  let m2 := add_transition m1 a.end_ EPSILON_SYMBOL a.start
  let m3 := add_transition m2 a.end_ EPSILON_SYMBOL r2.1
  ({ start := r1.1, end_ := r2.1 }, m3)

/-- kleene_closure_nfa of nfa.c. -/
def kleene_closure_nfa (manager : states_manager) (a : t_nfa) : t_nfa × states_manager :=
  let r := positive_closure_nfa manager a
  (r.1, add_transition r.2 r.1.start EPSILON_SYMBOL r.1.end_)

/-- optional_nfa of nfa.c. -/
def optional_nfa (manager : states_manager) (a : t_nfa) : t_nfa × states_manager :=
  let r1 := new_state manager
  let r2 := new_state r1.2
  let m1 := add_transition r2.2 r1.1 EPSILON_SYMBOL a.start
  let m2 := add_transition m1 r1.1 EPSILON_SYMBOL r2.1
  let m3 := add_transition m2 a.end_ EPSILON_SYMBOL r2.1
  ({ start := r1.1, end_ := r2.1 }, m3)

/-- The fragment-stack loop of regex_to_nfa of nfa.c. The C code pops with
no emptiness check (`stack[top--]` with top possibly -1 reads out of
bounds); an underflowing pop is modelled as `none`. The stack list's head
is the top of the C array stack, so a binary operator pops b then a. -/
def regex_to_nfa_loop : List item → List t_nfa → states_manager →
    Option (List t_nfa × states_manager)
  | [], stack, manager => some (stack, manager)
  | current :: rest, stack, manager =>
    match current.type, stack with
    | OPERAND, stack =>
      let r := symbol_nfa manager current.value
      regex_to_nfa_loop rest (r.1 :: stack) r.2
    | CONCATENATION, b :: a :: stack =>
      let r := concat_nfa manager a b
      regex_to_nfa_loop rest (r.1 :: stack) r.2
    | CONCATENATION, _ => none
    | ALTERNATION, b :: a :: stack =>
      let r := union_nfa manager a b
      regex_to_nfa_loop rest (r.1 :: stack) r.2
    | ALTERNATION, _ => none
    | KLEENE_STAR, a :: stack =>
      let r := kleene_closure_nfa manager a
      regex_to_nfa_loop rest (r.1 :: stack) r.2
    | KLEENE_STAR, _ => none
    | POSITIVE_CLOSURE, a :: stack =>
      let r := positive_closure_nfa manager a
      regex_to_nfa_loop rest (r.1 :: stack) r.2
    | POSITIVE_CLOSURE, _ => none
    | OPTIONAL, a :: stack =>
      let r := optional_nfa manager a
      regex_to_nfa_loop rest (r.1 :: stack) r.2
    | OPTIONAL, _ => none
    | L_PARENTHESIS, stack => regex_to_nfa_loop rest stack manager
    | R_PARENTHESIS, stack => regex_to_nfa_loop rest stack manager

/-- Count-trailing-zeros (__builtin_ctzll) on a 64-bit value: the fuel of
64 covers every bit position of a uint64_t; on 0 the C builtin is
undefined (the callers never pass 0 for in-range automatons). -/
def ctz_fuel : Nat → Nat → Nat
  | 0, _ => 0
  | fuel + 1, n => if n % 2 = 1 then 0 else 1 + ctz_fuel fuel (n / 2)

/-- ctzll: lowest set bit index of a 64-bit mask. -/
def ctzll (n : Nat) : Nat := ctz_fuel 64 n

/-- The bit-iteration pattern of nfa.c (`while (tmp) { s = ctz(tmp);
tmp &= ~(1ULL << s); acc |= f(s); }`): OR together f over the set bits.
Clearing the lowest set bit s is subtraction of 2^s. Fuel 64 covers every
bit of a uint64_t mask. -/
def fold_bits : Nat → Nat → (Nat → Nat) → Nat
  | 0, _, _ => 0
  | fuel + 1, tmp, f =>
    if tmp = 0 then 0
    else
      let s := ctzll tmp
      f s ||| fold_bits fuel (tmp - 2 ^ s) f

/-- nfa of nfa.h as used by nfa.c: dense transition table
[state][column] → destination bit-set, modelled as a function, plus the
per-state epsilon closures. -/
structure nfa where
  start_state : Nat
  states : Nat
  accept_states : Nat
  alphabet : alphabet
  transitions : Nat → Nat → Nat
  epsilon_closures : Nat → Nat

/-- The transition-table fill loop of t_nfa_to_nfa of nfa.c: start from the
all-zero (calloc) table and OR bit `to` into row [from], column of the
transition's symbol. -/
def build_transition_table (ts : List t_transition) (char_to_col : Nat → Int) :
    Nat → Nat → Nat :=
  ts.foldl
    (fun table t =>
      let col := (char_to_col (t.symbol % 256)).toNat
      fun st c =>
        if st = t.from_state ∧ c = col then table st c ||| 2 ^ t.to_state
        else table st c)
    (fun _ _ => 0)

/-- The while loop of epsilon_closure of nfa.c: bitmask DFS over the
epsilon column. An in-range execution (all masks < 2^64) pushes at most
1 + 64·64 bits in total, so fuel 4224 is never exhausted there. -/
def eps_closure_loop (eps_row : Nat → Nat) : Nat → Nat → Nat → Nat
  | 0, _, closure => closure
  | fuel + 1, stack, closure =>
    if stack = 0 then closure
    else
      let s := ctzll stack
      let stack1 := stack - 2 ^ s
      if closure &&& 2 ^ s ≠ 0 then eps_closure_loop eps_row fuel stack1 closure
      else eps_closure_loop eps_row fuel (stack1 ||| eps_row s) (closure ||| 2 ^ s)

/-- epsilon_closure of nfa.c for one state, given the transition table and
the epsilon column. -/
def epsilon_closure_of (transitions : Nat → Nat → Nat) (eps_col : Nat) (state : Nat) : Nat :=
  eps_closure_loop (fun s => transitions s eps_col) 4224 (2 ^ state) 0

/-- t_nfa_to_nfa of nfa.c (calculate_epsilon_closure is folded in: the C
precomputes epsilon_closures[state] for every state; the function field
yields the same values). -/
def t_nfa_to_nfa (temp_nfa : t_nfa) (manager : states_manager) : nfa :=
  let a := manager.manager_alphabet
  let transitions := build_transition_table manager.transitions a.char_to_col
  let eps_col := (a.char_to_col (EPSILON_SYMBOL % 256)).toNat
  { start_state := temp_nfa.start
    states := manager.states.length
    accept_states := 2 ^ temp_nfa.end_
    alphabet := a
    transitions := transitions
    epsilon_closures := fun state => epsilon_closure_of transitions eps_col state }

/-- regex_to_nfa of nfa.c. The C reads the first r.size items and finally
reads stack[top], which is out of bounds when the stack is empty; both the
underflow inside the loop and an empty final stack are modelled as `none`. -/
def regex_to_nfa (r : regex) : Option nfa :=
  match regex_to_nfa_loop (r.items.take r.size) [] new_states_manager with
  | some (final_fragment :: _, manager) => some (t_nfa_to_nfa final_fragment manager)
  | _ => none

/-- The per-character loop of match_nfa of nfa.c. -/
def match_nfa_loop (automaton : nfa) : Nat → List Nat → Bool
  | current, [] => (current &&& automaton.accept_states) != 0
  | current, c :: rest =>
    let col := automaton.alphabet.char_to_col (c % 256)
    if col = -1 then false
    else
      let next := fold_bits 64 current (fun s => automaton.transitions s col.toNat)
      let expanded := fold_bits 64 next (fun s => automaton.epsilon_closures s)
      if expanded = 0 then false
      else match_nfa_loop automaton expanded rest

/-- match_nfa of nfa.c. -/
def match_nfa (automaton : nfa) (input : List Nat) : Bool :=
  match_nfa_loop automaton (automaton.epsilon_closures automaton.start_state) input

/-- compile of the spec (section 6): parse then build, `none` exactly when
a stage fails. -/
def compile (pattern : List Nat) : Option nfa :=
  regex_to_nfa (parse_regex (some pattern))

/-- matches(compile(pattern), input) of the spec, `none` when compilation
fails. -/
def compile_and_match (pattern input : List Nat) : Option Bool :=
  (compile pattern).map (fun automaton => match_nfa automaton input)

/-!  Further definitions used by the theorems.  -/

/-- Spec section 4.2: "left can terminate a sub-expression (literal,
closing-paren, or any unary postfix operator)". -/
def can_end_subexpr (t : item_type) : Bool :=
  t == OPERAND || t == R_PARENTHESIS || t == KLEENE_STAR ||
  t == POSITIVE_CLOSURE || t == OPTIONAL

/-- Spec section 4.2: "right can begin one (literal or opening-paren)". -/
def can_begin_subexpr (t : item_type) : Bool :=
  t == OPERAND || t == L_PARENTHESIS

/-- Spec section 4.2, stated as a function: a new token sequence with an
explicit concatenation token inserted between exactly the adjacent pairs
(left, right) where left can end and right can begin a sub-expression. -/
def expander_spec : List item → List item
  | [] => []
  | [x] => [x]
  | x :: y :: rest =>
    x :: ((if can_end_subexpr x.type && can_begin_subexpr y.type then
            [new_item CONCAT_SYMBOL CONCATENATION] else []) ++ expander_spec (y :: rest))

/-- Stack-height simulation of the Thompson builder: the height after
consuming the items starting from height n, or `none` at the first
operator that finds too few fragments on the stack. -/
def count_ok : List item → Nat → Option Nat
  | [], n => some n
  | current :: rest, n =>
    match current.type with
    | OPERAND => count_ok rest (n + 1)
    | CONCATENATION | ALTERNATION => if n ≥ 2 then count_ok rest (n - 1) else none
    | KLEENE_STAR | POSITIVE_CLOSURE | OPTIONAL => if n ≥ 1 then count_ok rest n else none
    | _ => count_ok rest n

/-- A concrete compiled automaton (for the single literal 'a'), used to
instantiate the general matcher theorems. -/
def demo_nfa : nfa :=
  let r := symbol_nfa new_states_manager 97
  t_nfa_to_nfa r.1 r.2

/-- The alphabet invariant of the spec's data model: the symbol count
mirrors the list of registered symbols, epsilon is first (column 0), every
registered symbol is a byte, the symbol at column i maps back to column i
(so every registered symbol has exactly one column), and every other byte
maps to -1. -/
def alphabet_inv (a : alphabet) : Prop :=
  a.symbol_count = a.symbols.length
  ∧ a.symbols.head? = some EPSILON_SYMBOL
  ∧ (∀ s ∈ a.symbols, s < 256)
  ∧ (∀ (i : Nat) (h : i < a.symbols.length), a.char_to_col (a.symbols[i]) = (i : Int))
  ∧ (∀ c < 256, c ∉ a.symbols → a.char_to_col c = -1)

/-- The states-manager invariant: its alphabet is well-formed and every
recorded transition's symbol is a byte with an assigned column. -/
def manager_inv (m : states_manager) : Prop :=
  alphabet_inv m.manager_alphabet
  ∧ ∀ t ∈ m.transitions,
      t.symbol < 256 ∧ m.manager_alphabet.char_to_col (t.symbol % 256) ≠ -1

/-!  Theorems.  -/

theorem sy_flush_lparen (v : Nat) (s1 s2 : List item) :
    sy_flush (s1 ++ new_item v L_PARENTHESIS :: s2) = none := by
  induction s1 with
  | nil => simp [sy_flush, new_item]
  | cons x s1 ih =>
    simp only [List.cons_append, sy_flush, List.append_eq]
    split
    · rfl
    · rw [ih]

/-- C2: parse_regex(")") and parse_regex("(a") both return the empty
failure regex (no items, size 0); a closing parenthesis that finds the
operator stack empty fails (sy_rparen_pop [] = none), and an opening
parenthesis still on the stack at end of input makes the final flush fail,
wherever it sits in the stack; no partial postfix sequence is exposed. -/
theorem unbalanced_grouping_rejected :
    parse_regex (some [41]) = { items := [], size := 0 }
    ∧ parse_regex (some [40, 97]) = { items := [], size := 0 }
    ∧ sy_rparen_pop ([] : List item) = none
    ∧ (∀ (v : Nat) (s1 s2 : List item),
        sy_flush (s1 ++ new_item v L_PARENTHESIS :: s2) = none) :=
  ⟨by decide, by decide, rfl, sy_flush_lparen⟩

/-- C3: matching is whole-string: the automaton for "(ab)*c" accepts
"ababc" but rejects "ababcx" (unmatched suffix) and "aababc" (unmatched
prefix). -/
theorem whole_string_matching :
    compile_and_match [40, 97, 98, 41, 42, 99] [97, 98, 97, 98, 99] = some true
    ∧ compile_and_match [40, 97, 98, 41, 42, 99] [97, 98, 97, 98, 99, 120] = some false
    ∧ compile_and_match [40, 97, 98, 41, 42, 99] [97, 97, 98, 97, 98, 99] = some false := by
  decide

/-- C4: the concrete literal, closure and alternation examples: "a"
matches "a" but not "b" or ""; "a*" matches "" and "aaaa"; "a+" rejects ""
and matches "a"; "a|b" matches "a" but not "c". -/
theorem literal_closure_alternation_examples :
    compile_and_match [97] [97] = some true
    ∧ compile_and_match [97] [98] = some false
    ∧ compile_and_match [97] [] = some false
    ∧ compile_and_match [97, 42] [] = some true
    ∧ compile_and_match [97, 42] [97, 97, 97, 97] = some true
    ∧ compile_and_match [97, 43] [] = some false
    ∧ compile_and_match [97, 43] [97] = some true
    ∧ compile_and_match [97, 124, 98] [97] = some true
    ∧ compile_and_match [97, 124, 98] [99] = some false := by
  decide

/-- C5: the tokenizer emits one token per character, except that an escape
symbol followed by any character consumes both and emits that character as
a literal operand; a trailing unmatched escape symbol is itself emitted as
a literal operand; hence "a\*" matches "a*" and not "aa". -/
theorem tokenizer_escape_behavior :
    (∀ (c : Nat) (rest : List Nat),
       itemize_regex (ESCAPE_SYMBOL :: c :: rest) = new_item c OPERAND :: itemize_regex rest)
    ∧ itemize_regex [ESCAPE_SYMBOL] = [new_item ESCAPE_SYMBOL OPERAND]
    ∧ (∀ (c : Nat) (rest : List Nat), c ≠ ESCAPE_SYMBOL →
       itemize_regex (c :: rest) = new_item c (get_item_type c) :: itemize_regex rest)
    ∧ itemize_regex [] = []
    ∧ compile_and_match [97, 92, 42] [97, 42] = some true
    ∧ compile_and_match [97, 92, 42] [97, 97] = some false := by
  refine ⟨?_, by decide, ?_, rfl, by decide, by decide⟩
  · intro c rest
    simp [itemize_regex]
  · intro c rest h
    cases rest with
    | nil => simp [itemize_regex]
    | cons d rest2 => simp [itemize_regex, h]

theorem tokenizer_escape_behavior_witness :
    (97 : Nat) ≠ ESCAPE_SYMBOL
    ∧ itemize_regex [97] = new_item 97 (get_item_type 97) :: itemize_regex [] :=
  ⟨by decide, tokenizer_escape_behavior.2.2.1 97 [] (by decide)⟩

/-- C9: an unescaped '.' is classified as the explicit concatenation
operator, never a literal or wildcard: the automaton for "a.b" accepts
"ab" and rejects "a.b", while the escaped pattern "a\.b" accepts "a.b". -/
theorem unescaped_dot_is_concatenation :
    get_item_type 46 = CONCATENATION
    ∧ compile_and_match [97, 46, 98] [97, 98] = some true
    ∧ compile_and_match [97, 46, 98] [97, 46, 98] = some false
    ∧ compile_and_match [97, 92, 46, 98] [97, 46, 98] = some true := by
  decide

/-- C10: the empty pattern yields the same empty failure regex as a null
pattern; the tokenizer itself succeeds with zero items and it is the
concatenation-expansion stage's non-positive-size precondition that
rejects the empty sequence. -/
theorem empty_pattern_rejected :
    parse_regex (some []) = { items := [], size := 0 }
    ∧ parse_regex none = { items := [], size := 0 }
    ∧ itemize_regex [] = []
    ∧ implicit_to_explicit_concatenation (itemize_regex []) = none := by
  decide

/-- C7: the concatenation expander inserts an explicit concatenation token
between an adjacent pair exactly when the left token can end a
sub-expression (literal, closing-paren, or unary postfix operator) and the
right one can begin one (literal or opening-paren), inserts nothing
between any other pair, and preserves all original tokens in order: it
computes exactly the spec's expansion. -/
theorem concat_expansion_exact :
    (∀ a b : item,
       should_insert_concat a b = (can_end_subexpr a.type && can_begin_subexpr b.type))
    ∧ (∀ items : List item,
       implicit_to_explicit_concatenation items =
         if items = [] then none else some (expander_spec items)) := by
  have hloop : ∀ l : List item, i2e_loop l = expander_spec l := by
    intro l
    induction l with
    | nil => rfl
    | cons x rest ih =>
      cases rest with
      | nil => rfl
      | cons y rest2 =>
        have hc : should_insert_concat x y =
            (can_end_subexpr x.type && can_begin_subexpr y.type) := rfl
        simp only [i2e_loop, expander_spec, hc, ih]
        split
        · simp
        · simp
  refine ⟨fun a b => rfl, ?_⟩
  intro items
  cases items with
  | nil => rfl
  | cons x rest =>
    simp [implicit_to_explicit_concatenation, hloop]

theorem regex_to_nfa_loop_length :
    ∀ (l : List item) (stack : List t_nfa) (manager : states_manager) (n : Nat),
      count_ok l stack.length = some n →
      ∃ stack2 manager2,
        regex_to_nfa_loop l stack manager = some (stack2, manager2) ∧ stack2.length = n := by
  intro l
  induction l with
  | nil =>
    intro stack manager n h
    simp only [count_ok, Option.some.injEq] at h
    exact ⟨stack, manager, rfl, h⟩
  | cons head rest ih =>
    intro stack manager n h
    obtain ⟨v, ty⟩ := head
    cases ty with
    | OPERAND =>
      simp only [count_ok] at h
      simp only [regex_to_nfa_loop]
      exact ih _ _ n (by simpa using h)
    | CONCATENATION =>
      match stack with
      | [] => simp [count_ok] at h
      | [x] => simp [count_ok] at h
      | b :: a :: stack2 =>
        simp only [count_ok, List.length_cons] at h
        rw [if_pos (by omega)] at h
        have h2 : count_ok rest (stack2.length + 1) = some n := by
          have h3 : stack2.length + 1 + 1 - 1 = stack2.length + 1 := by omega
          rw [h3] at h
          exact h
        simp only [regex_to_nfa_loop]
        exact ih _ _ n (by simpa using h2)
    | ALTERNATION =>
      match stack with
      | [] => simp [count_ok] at h
      | [x] => simp [count_ok] at h
      | b :: a :: stack2 =>
        simp only [count_ok, List.length_cons] at h
        rw [if_pos (by omega)] at h
        have h2 : count_ok rest (stack2.length + 1) = some n := by
          have h3 : stack2.length + 1 + 1 - 1 = stack2.length + 1 := by omega
          rw [h3] at h
          exact h
        simp only [regex_to_nfa_loop]
        exact ih _ _ n (by simpa using h2)
    | KLEENE_STAR =>
      match stack with
      | [] => simp [count_ok] at h
      | a :: stack2 =>
        simp only [count_ok, List.length_cons] at h
        rw [if_pos (by omega)] at h
        simp only [regex_to_nfa_loop]
        exact ih _ _ n (by simpa using h)
    | POSITIVE_CLOSURE =>
      match stack with
      | [] => simp [count_ok] at h
      | a :: stack2 =>
        simp only [count_ok, List.length_cons] at h
        rw [if_pos (by omega)] at h
        simp only [regex_to_nfa_loop]
        exact ih _ _ n (by simpa using h)
    | OPTIONAL =>
      match stack with
      | [] => simp [count_ok] at h
      | a :: stack2 =>
        simp only [count_ok, List.length_cons] at h
        rw [if_pos (by omega)] at h
        simp only [regex_to_nfa_loop]
        exact ih _ _ n (by simpa using h)
    | L_PARENTHESIS =>
      simp only [count_ok] at h
      simp only [regex_to_nfa_loop]
      exact ih _ _ n h
    | R_PARENTHESIS =>
      simp only [count_ok] at h
      simp only [regex_to_nfa_loop]
      exact ih _ _ n h

/-- C1 counterexample: the pattern "|" (a lone alternation operator) makes
parse_regex succeed with a non-empty postfix sequence of size 1, yet the
Thompson builder's first operator pops from an empty fragment stack, so
the build underflows. -/
theorem parse_success_but_builder_underflow :
    (parse_regex (some [124])).size = 1
    ∧ (regex_to_nfa_loop (parse_regex (some [124])).items [] new_states_manager).isNone = true
    ∧ (regex_to_nfa (parse_regex (some [124]))).isNone = true := by
  decide

/-- C1 as amended: parse_regex success alone does not guarantee the
Thompson builder's stack safety (the parser only rejects mismatched
parentheses); for every pattern whose parsed postfix sequence is
well-formed — the stack-height simulation from 0 ends at exactly 1 without
underflow — the builder consumes the sequence with no operator popping an
empty or insufficient stack, and exactly one fragment remains at the end. -/
theorem wellformed_postfix_builder_no_underflow (pattern : List Nat)
    (h : count_ok (parse_regex (some pattern)).items 0 = some 1) :
    ∃ final_fragment manager,
      regex_to_nfa_loop (parse_regex (some pattern)).items [] new_states_manager =
        some ([final_fragment], manager) := by
  obtain ⟨stack2, manager2, hloop, hlen⟩ :=
    regex_to_nfa_loop_length (parse_regex (some pattern)).items [] new_states_manager 1
      (by simpa using h)
  match stack2, hlen with
  | [f], _ => exact ⟨f, manager2, hloop⟩

theorem wellformed_postfix_builder_no_underflow_witness :
    count_ok (parse_regex (some [97])).items 0 = some 1
    ∧ ∃ final_fragment manager,
        regex_to_nfa_loop (parse_regex (some [97])).items [] new_states_manager =
          some ([final_fragment], manager) :=
  ⟨by decide, wellformed_postfix_builder_no_underflow [97] (by decide)⟩

theorem match_nfa_loop_unknown (automaton : nfa) :
    ∀ (input : List Nat) (current : Nat) (c : Nat), c ∈ input →
      automaton.alphabet.char_to_col (c % 256) = -1 →
      match_nfa_loop automaton current input = false := by
  intro input
  induction input with
  | nil =>
    intro current c hc
    exact absurd hc (List.not_mem_nil c)
  | cons d rest ih =>
    intro current c hc hcol
    rcases List.mem_cons.mp hc with rfl | hmem
    · simp [match_nfa_loop, hcol]
    · simp only [match_nfa_loop]
      split_ifs with h1 h2
      · rfl
      · rfl
      · exact ih _ c hmem hcol

/-- C6: for every compiled automaton and every input containing a
character whose byte was never registered in the automaton's alphabet
(its column is -1), match_nfa returns false — an ordinary boolean result,
produced at the latest when the unknown character is reached. -/
theorem unknown_symbol_match_fails (automaton : nfa) (input : List Nat) (c : Nat)
    (hmem : c ∈ input)
    (hcol : automaton.alphabet.char_to_col (c % 256) = -1) :
    match_nfa automaton input = false :=
  match_nfa_loop_unknown automaton input _ c hmem hcol

theorem unknown_symbol_match_fails_witness :
    ((98 : Nat) ∈ [98] ∧ demo_nfa.alphabet.char_to_col (98 % 256) = -1)
    ∧ match_nfa demo_nfa [98] = false :=
  ⟨⟨by decide, by decide⟩,
   unknown_symbol_match_fails demo_nfa [98] 98 (by decide) (by decide)⟩

theorem alphabet_inv_new : alphabet_inv new_alphabet := by
  refine ⟨rfl, rfl, ?_, ?_, ?_⟩
  · intro s hs
    simp [new_alphabet, EPSILON_SYMBOL] at hs
    omega
  · intro i h
    simp [new_alphabet, EPSILON_SYMBOL] at h ⊢
    omega
  · intro c hc hmem
    simp [new_alphabet, EPSILON_SYMBOL] at hmem ⊢
    intro hc0
    exact absurd hc0 hmem

theorem add_symbol_eps (a : alphabet) : add_symbol a EPSILON_SYMBOL = a := rfl

theorem add_symbol_present (a : alphabet) (s : Nat) (h256 : s < 256)
    (h : a.char_to_col s ≠ -1) : add_symbol a s = a := by
  simp only [add_symbol, Nat.mod_eq_of_lt h256]
  split_ifs with h1
  · rfl
  · rfl

theorem add_symbol_new (a : alphabet) (s : Nat) (h256 : s < 256)
    (hne : s ≠ EPSILON_SYMBOL) (hcol : a.char_to_col s = -1) :
    add_symbol a s =
      { char_to_col := fun c => if c = s then (a.symbol_count : Int) else a.char_to_col c
        symbols := a.symbols ++ [s]
        symbol_count := a.symbol_count + 1 } := by
  simp only [add_symbol, Nat.mod_eq_of_lt h256]
  rw [if_neg hne, if_neg (by simp [hcol])]

theorem alphabet_inv_eps_col (a : alphabet) (ha : alphabet_inv a) :
    a.char_to_col EPSILON_SYMBOL = 0 := by
  obtain ⟨f, syms, cnt⟩ := a
  obtain ⟨hcount, hhead, hbyte, hget, hneg⟩ := ha
  cases syms with
  | nil => simp at hhead
  | cons e tl =>
    simp at hhead
    have h0 := hget 0 (by simp)
    simp at h0
    rw [hhead] at h0
    exact h0

theorem add_symbol_inv (a : alphabet) (s : Nat) (h256 : s < 256)
    (ha : alphabet_inv a) : alphabet_inv (add_symbol a s) := by
  rcases eq_or_ne s EPSILON_SYMBOL with h1 | h1
  · rw [h1, add_symbol_eps]
    exact ha
  rcases ne_or_eq (a.char_to_col s) (-1) with h2 | h2
  · rw [add_symbol_present a s h256 h2]
    exact ha
  rw [add_symbol_new a s h256 h1 h2]
  obtain ⟨f, syms, cnt⟩ := a
  obtain ⟨hcount, hhead, hbyte, hget, hneg⟩ := ha
  unfold alphabet_inv
  dsimp only at h2 hcount hhead hbyte hget hneg ⊢
  have hnotmem : s ∉ syms := by
    intro hmem
    obtain ⟨i, hi, hgi⟩ := List.mem_iff_getElem.mp hmem
    have hcol := hget i hi
    rw [hgi, h2] at hcol
    omega
  refine ⟨by simp [hcount], ?_, ?_, ?_, ?_⟩
  · cases syms with
    | nil => simp at hhead
    | cons e tl => simpa using hhead
  · intro x hx
    rcases List.mem_append.mp hx with hx | hx
    · exact hbyte x hx
    · simp at hx
      omega
  · intro i hi
    simp only [List.length_append, List.length_singleton] at hi
    by_cases hiv : i < syms.length
    · rw [List.getElem_append_left hiv]
      have hmem : syms[i] ∈ syms := List.getElem_mem hiv
      rw [if_neg (by intro hEq; rw [hEq] at hmem; exact hnotmem hmem)]
      exact hget i hiv
    · have hieq : i = syms.length := by omega
      rw [List.getElem_concat_length syms s i hieq]
      rw [if_pos rfl, hcount, hieq]
  · intro c hc hcmem
    have hc1 : c ∉ syms := fun hm => hcmem (List.mem_append.mpr (Or.inl hm))
    have hc2 : c ≠ s := by
      intro hEq
      exact hcmem (List.mem_append.mpr (Or.inr (by simp [hEq])))
    rw [if_neg hc2]
    exact hneg c hc hc1

theorem add_symbol_mono (a : alphabet) (s c : Nat)
    (h : a.char_to_col c ≠ -1) : (add_symbol a s).char_to_col c ≠ -1 := by
  simp only [add_symbol]
  split_ifs with h1 h2
  · exact h
  · exact h
  · dsimp only
    by_cases hc : c = s % 256
    · rw [if_pos hc]
      intro hEq
      omega
    · rw [if_neg hc]
      exact h

theorem add_symbol_registers (a : alphabet) (s : Nat) (h256 : s < 256)
    (ha : alphabet_inv a) : (add_symbol a s).char_to_col (s % 256) ≠ -1 := by
  rw [Nat.mod_eq_of_lt h256]
  rcases eq_or_ne s EPSILON_SYMBOL with h1 | h1
  · rw [h1, add_symbol_eps, alphabet_inv_eps_col a ha]
    decide
  rcases ne_or_eq (a.char_to_col s) (-1) with h2 | h2
  · rw [add_symbol_present a s h256 h2]
    exact h2
  rw [add_symbol_new a s h256 h1 h2]
  dsimp only
  rw [if_pos rfl]
  intro hEq
  omega

theorem manager_inv_new : manager_inv new_states_manager :=
  ⟨alphabet_inv_new, by intro t ht; simp [new_states_manager] at ht⟩

theorem add_transition_inv (m : states_manager) (f s t : Nat) (h256 : s < 256)
    (hm : manager_inv m) : manager_inv (add_transition m f s t) := by
  obtain ⟨ha, htr⟩ := hm
  refine ⟨add_symbol_inv _ s h256 ha, ?_⟩
  intro tr htrm
  simp only [add_transition] at htrm
  rcases List.mem_append.mp htrm with hold | hnew
  · obtain ⟨hb, hcol⟩ := htr tr hold
    exact ⟨hb, add_symbol_mono _ s _ hcol⟩
  · simp at hnew
    subst hnew
    exact ⟨h256, add_symbol_registers _ s h256 ha⟩

/-- C8: the alphabet invariant holds throughout compilation: a fresh
alphabet satisfies it with epsilon present at column 0; under the
invariant epsilon is always first with column 0; adding epsilon or an
already-registered byte changes nothing; adding any byte preserves the
invariant (so every registered symbol keeps exactly one column); a
genuinely new byte is appended after all previously seen symbols and
receives the next column (first-seen order); and a fresh states manager
satisfies, and add_transition preserves, the property that every recorded
transition's symbol has an assigned column. -/
theorem alphabet_column_invariant :
    alphabet_inv new_alphabet
    ∧ (∀ a : alphabet, alphabet_inv a →
        a.symbols.head? = some EPSILON_SYMBOL ∧ a.char_to_col EPSILON_SYMBOL = 0)
    ∧ (∀ a : alphabet, add_symbol a EPSILON_SYMBOL = a)
    ∧ (∀ (a : alphabet) (s : Nat), s < 256 → a.char_to_col s ≠ -1 → add_symbol a s = a)
    ∧ (∀ (a : alphabet) (s : Nat), s < 256 → alphabet_inv a → alphabet_inv (add_symbol a s))
    ∧ (∀ (a : alphabet) (s : Nat), s < 256 → alphabet_inv a → a.char_to_col s = -1 →
        s ≠ EPSILON_SYMBOL →
        (add_symbol a s).symbols = a.symbols ++ [s]
        ∧ (add_symbol a s).char_to_col s = (a.symbol_count : Int))
    ∧ manager_inv new_states_manager
    ∧ (∀ (m : states_manager) (f s t : Nat), s < 256 → manager_inv m →
        manager_inv (add_transition m f s t)) := by
  refine ⟨alphabet_inv_new, ?_, add_symbol_eps, ?_, ?_, ?_, manager_inv_new, ?_⟩
  · intro a ha
    exact ⟨ha.2.1, alphabet_inv_eps_col a ha⟩
  · intro a s h256 h
    exact add_symbol_present a s h256 h
  · intro a s h256 ha
    exact add_symbol_inv a s h256 ha
  · intro a s h256 ha hcol hne
    rw [add_symbol_new a s h256 hne hcol]
    refine ⟨rfl, ?_⟩
    dsimp only
    rw [if_pos rfl]
  · intro m f s t h256 hm
    exact add_transition_inv m f s t h256 hm

theorem alphabet_column_invariant_witness :
    ((97 : Nat) < 256 ∧ alphabet_inv new_alphabet)
    ∧ alphabet_inv (add_symbol new_alphabet 97) :=
  ⟨⟨by decide, alphabet_column_invariant.1⟩,
   alphabet_column_invariant.2.2.2.2.1 new_alphabet 97 (by decide)
     alphabet_column_invariant.1⟩
